import Mathlib

/-!
Verification of the string-processing and conversation-driving core of
`BuildingAQuasiAgent.py` (an LLM-backed three-step Python function generator).

Python strings are modelled as `List Char`.  Python's `str.strip()` is
modelled by `pyStrip` (trim whitespace from both ends), `str.split('\x60\x60\x60')`
by `splitFence` (split on the first-found, non-overlapping occurrences of a
triple-backtick separator, scanning left to right, exactly as CPython does),
and `'\x60\x60\x60' in s` by `containsFence`.
-/

/-- The backtick character, written by code point to keep the sources clean. -/
def backtick : Char := Char.ofNat 96

/-- The triple-backtick fence delimiter used by the Python source. -/
def fence : List Char := [backtick, backtick, backtick]

/-- Model of Python `'\x60\x60\x60' in response`: does the text contain the
triple-backtick marker as a (contiguous) substring? -/
def containsFence : List Char → Bool
  | c1 :: c2 :: c3 :: rest =>
    if c1 = backtick ∧ c2 = backtick ∧ c3 = backtick then true
    else containsFence (c2 :: c3 :: rest)
  | _ => false

/-- Model of Python `response.split('\x60\x60\x60')`: split on non-overlapping
occurrences of the triple-backtick separator, scanning left to right and
consuming each occurrence greedily (CPython `str.split` semantics for a
non-empty separator). -/
def splitFence : List Char → List (List Char)
  | c1 :: c2 :: c3 :: rest =>
    if c1 = backtick ∧ c2 = backtick ∧ c3 = backtick then
      [] :: splitFence rest
    else
      match splitFence (c2 :: c3 :: rest) with
      | [] => [[c1]]
      | p :: ps => (c1 :: p) :: ps
  | s => [s]

/-- Drop the longest prefix of characters satisfying `p` (helper for the
model of Python's `strip` family). -/
def lstrip (p : Char → Bool) : List Char → List Char
  | [] => []
  | c :: cs => if p c then lstrip p cs else c :: cs

/-- Drop the longest suffix of characters satisfying `p`. -/
def rstrip (p : Char → Bool) (s : List Char) : List Char :=
  (lstrip p s.reverse).reverse

/-- Drop the longest prefix and suffix of characters satisfying `p`
(model of Python `str.strip(chars)`). -/
def stripBy (p : Char → Bool) (s : List Char) : List Char :=
  lstrip p (rstrip p s)

/-- Model of Python `str.strip()` with no argument: trim whitespace from
both ends. -/
def pyStrip (s : List Char) : List Char :=
  stripBy Char.isWhitespace s

/-- The characters of the literal language tag `'python'` checked by
`code_block.startswith('python')` in the source. -/
def pythonTag : List Char := ['p', 'y', 't', 'h', 'o', 'n']

/-- Embedding of `extract_code_block` (src/BuildingAQuasiAgent.py lines 21-38):
if the response contains a triple-backtick marker and splitting on it yields at
least three parts, strip part 1, drop a leading `python` tag (6 characters)
when present and strip again; otherwise fall back to the stripped response. -/
def extract_code_block (response : List Char) : List Char :=
  if containsFence response then
    if (splitFence response).length ≥ 3 then
      if pythonTag.isPrefixOf (pyStrip ((splitFence response).getD 1 [])) then
        pyStrip ((pyStrip ((splitFence response).getD 1 [])).drop 6)
      else
        pyStrip ((splitFence response).getD 1 [])
    else
      pyStrip response
  else
    pyStrip response

/-- Embedding of `create_clean_assistant_response` (lines 40-45): wrap the
code in the canonical fenced form, Python `f"\x60\x60\x60python\n{code}\n\x60\x60\x60"`. -/
def create_clean_assistant_response (code : List Char) : List Char :=
  fence ++ pythonTag ++ ['\n'] ++ code ++ ['\n'] ++ fence

theorem lstrip_cons_of_pos {p : Char → Bool} {c : Char} (t : List Char) (h : p c = true) :
    lstrip p (c :: t) = lstrip p t := by
  simp [lstrip, h]

theorem lstrip_cons_of_neg {p : Char → Bool} {c : Char} (t : List Char) (h : p c = false) :
    lstrip p (c :: t) = c :: t := by
  simp [lstrip, h]

theorem lstrip_idem (p : Char → Bool) : ∀ s : List Char, lstrip p (lstrip p s) = lstrip p s := by
  intro s
  induction s with
  | nil => rfl
  | cons c t ih =>
    by_cases h : p c = true
    · rw [lstrip_cons_of_pos t h, ih]
    · rw [lstrip_cons_of_neg t (Bool.not_eq_true _ ▸ h), lstrip_cons_of_neg t]
      exact Bool.not_eq_true _ ▸ h

theorem lstrip_append_of_eq_nil {p : Char → Bool} :
    ∀ a b : List Char, lstrip p a = [] → lstrip p (a ++ b) = lstrip p b := by
  intro a
  induction a with
  | nil => intro b _; rfl
  | cons c t ih =>
    intro b h
    by_cases hc : p c = true
    · rw [lstrip_cons_of_pos t hc] at h
      rw [List.cons_append, lstrip_cons_of_pos _ hc, ih b h]
    · rw [lstrip_cons_of_neg t (Bool.not_eq_true _ ▸ hc)] at h
      exact absurd h (by simp)

theorem lstrip_append_of_ne_nil {p : Char → Bool} :
    ∀ a b : List Char, lstrip p a ≠ [] → lstrip p (a ++ b) = lstrip p a ++ b := by
  intro a
  induction a with
  | nil => intro b h; exact absurd rfl h
  | cons c t ih =>
    intro b h
    by_cases hc : p c = true
    · rw [lstrip_cons_of_pos t hc] at h
      rw [List.cons_append, lstrip_cons_of_pos _ hc, lstrip_cons_of_pos t hc, ih b h]
    · have hc' : p c = false := Bool.not_eq_true _ ▸ hc
      rw [List.cons_append, lstrip_cons_of_neg _ hc', lstrip_cons_of_neg t hc']
      rfl

theorem rstrip_eq_nil_iff {p : Char → Bool} {s : List Char} :
    rstrip p s = [] ↔ lstrip p s.reverse = [] := by
  unfold rstrip
  simp

theorem rstrip_append_of_eq_nil {p : Char → Bool} (a : List Char) {b : List Char}
    (h : rstrip p b = []) : rstrip p (a ++ b) = rstrip p a := by
  unfold rstrip
  rw [List.reverse_append, lstrip_append_of_eq_nil _ _ (rstrip_eq_nil_iff.mp h)]

theorem rstrip_append_of_ne_nil {p : Char → Bool} (a : List Char) {b : List Char}
    (h : rstrip p b ≠ []) : rstrip p (a ++ b) = a ++ rstrip p b := by
  unfold rstrip
  rw [List.reverse_append,
    lstrip_append_of_ne_nil _ _ (fun hnil => h (rstrip_eq_nil_iff.mpr hnil)),
    List.reverse_append, List.reverse_reverse]

theorem rstrip_cons (p : Char → Bool) (c : Char) (t : List Char) :
    rstrip p (c :: t) =
      if rstrip p t = [] then (if p c then [] else [c]) else c :: rstrip p t := by
  by_cases h : rstrip p t = []
  · rw [if_pos h]
    have : (c :: t) = [c] ++ t := rfl
    rw [this, rstrip_append_of_eq_nil [c] h]
    by_cases hc : p c = true
    · simp [rstrip, lstrip, hc]
    · simp [rstrip, lstrip, Bool.not_eq_true _ ▸ hc]
  · rw [if_neg h]
    have : (c :: t) = [c] ++ t := rfl
    rw [this, rstrip_append_of_ne_nil [c] h]
    rfl

theorem rstrip_idem (p : Char → Bool) (s : List Char) :
    rstrip p (rstrip p s) = rstrip p s := by
  unfold rstrip
  rw [List.reverse_reverse, lstrip_idem]

theorem rstrip_lstrip_of_fix {p : Char → Bool} :
    ∀ u : List Char, rstrip p u = u → rstrip p (lstrip p u) = lstrip p u := by
  intro u
  induction u with
  | nil => intro _; rfl
  | cons c t ih =>
    intro h
    by_cases hc : p c = true
    · rw [lstrip_cons_of_pos t hc]
      rw [rstrip_cons p c t] at h
      by_cases ht : rstrip p t = []
      · rw [if_pos ht, if_pos hc] at h
        exact absurd h.symm (by simp)
      · rw [if_neg ht] at h
        have h2 : rstrip p t = t := ((List.cons.injEq c (rstrip p t) c t).mp h).2
        exact ih h2
    · rw [lstrip_cons_of_neg t (Bool.not_eq_true _ ▸ hc)]
      exact h

theorem stripBy_idem (p : Char → Bool) (s : List Char) :
    stripBy p (stripBy p s) = stripBy p s := by
  unfold stripBy
  rw [rstrip_lstrip_of_fix (rstrip p s) (rstrip_idem p s), lstrip_idem]

theorem stripBy_cons_of_pos {p : Char → Bool} {c : Char} (t : List Char) (h : p c = true) :
    stripBy p (c :: t) = stripBy p t := by
  unfold stripBy
  rw [rstrip_cons]
  by_cases ht : rstrip p t = []
  · rw [if_pos ht, if_pos h, ht]
  · rw [if_neg ht, lstrip_cons_of_pos _ h]

theorem pyStrip_idem (s : List Char) : pyStrip (pyStrip s) = pyStrip s :=
  stripBy_idem _ s

theorem cf_cons_false {x : Char} {l : List Char} (h : containsFence (x :: l) = false) :
    containsFence l = false := by
  rcases l with _ | ⟨a, _ | ⟨b, r⟩⟩
  · rfl
  · rfl
  · simp only [containsFence] at h
    split at h
    · exact absurd h (by simp)
    · exact h

theorem cf_cons_true {c : Char} {l : List Char} (h : containsFence l = true) :
    containsFence (c :: l) = true := by
  rcases l with _ | ⟨a, _ | ⟨b, r⟩⟩
  · exact absurd h (by simp [containsFence])
  · exact absurd h (by simp [containsFence])
  · simp only [containsFence]
    split
    · rfl
    · exact h

theorem cf_fence_append (r : List Char) : containsFence (fence ++ r) = true := by
  show containsFence (backtick :: backtick :: backtick :: r) = true
  simp [containsFence]

theorem cf_of_append : ∀ a b : List Char, containsFence (a ++ fence ++ b) = true := by
  intro a
  induction a with
  | nil => intro b; simpa using cf_fence_append b
  | cons c t ih =>
    intro b
    have : (c :: t) ++ fence ++ b = c :: (t ++ fence ++ b) := by simp
    rw [this]
    exact cf_cons_true (ih b)

theorem cf_cons3 (c1 c2 c3 : Char) (rest : List Char) :
    containsFence (c1 :: c2 :: c3 :: rest) =
      if c1 = backtick ∧ c2 = backtick ∧ c3 = backtick then true
      else containsFence (c2 :: c3 :: rest) := rfl

theorem splitFence_cons3 (c1 c2 c3 : Char) (rest : List Char) :
    splitFence (c1 :: c2 :: c3 :: rest) =
      if c1 = backtick ∧ c2 = backtick ∧ c3 = backtick then [] :: splitFence rest
      else
        match splitFence (c2 :: c3 :: rest) with
        | [] => [[c1]]
        | p :: ps => (c1 :: p) :: ps := rfl

theorem cf_iff : ∀ s : List Char, containsFence s = true ↔ ∃ a b, s = a ++ fence ++ b := by
  intro s
  induction s with
  | nil => simp [containsFence, fence]
  | cons c t ih =>
    constructor
    · intro h
      rcases t with _ | ⟨a, _ | ⟨b, r⟩⟩
      · exact absurd h (by simp [containsFence])
      · exact absurd h (by simp [containsFence])
      · simp only [containsFence] at h
        by_cases hcond : c = backtick ∧ a = backtick ∧ b = backtick
        · refine ⟨[], r, ?_⟩
          simp [fence, hcond.1, hcond.2.1, hcond.2.2]
        · rw [if_neg hcond] at h
          obtain ⟨a', b', heq⟩ := ih.mp h
          exact ⟨c :: a', b', by simp [heq]⟩
    · rintro ⟨a, b, heq⟩
      rw [heq]
      exact cf_of_append a b

theorem cf_reverse_true {s : List Char} (h : containsFence s = true) :
    containsFence s.reverse = true := by
  obtain ⟨a, b, heq⟩ := (cf_iff s).mp h
  subst heq
  refine (cf_iff _).mpr ⟨b.reverse, a.reverse, ?_⟩
  have hfr : fence.reverse = fence := by decide
  simp [List.reverse_append, hfr, List.append_assoc]

theorem cf_cons_elim {c : Char} {l : List Char} (h : containsFence (c :: l) = true)
    (hc : ¬ c = backtick) : containsFence l = true := by
  rcases l with _ | ⟨a, _ | ⟨b, r⟩⟩
  · exact absurd h (by simp [containsFence])
  · exact absurd h (by simp [containsFence])
  · simp only [containsFence] at h
    rw [if_neg (fun hh => hc hh.1)] at h
    exact h

theorem cf_lstrip {p : Char → Bool} (hpb : p backtick = false) :
    ∀ s : List Char, containsFence s = true → containsFence (lstrip p s) = true := by
  intro s
  induction s with
  | nil => intro h; exact absurd h (by simp [containsFence])
  | cons c t ih =>
    intro h
    by_cases hc : p c = true
    · rw [lstrip_cons_of_pos t hc]
      have hcb : ¬ c = backtick := fun e => by rw [e, hpb] at hc; exact absurd hc (by simp)
      exact ih (cf_cons_elim h hcb)
    · rw [lstrip_cons_of_neg t (Bool.not_eq_true _ ▸ hc)]
      exact h

theorem cf_pyStrip {s : List Char} (h : containsFence s = true) :
    containsFence (pyStrip s) = true := by
  have hpb : Char.isWhitespace backtick = false := by decide
  have h1 : containsFence (rstrip Char.isWhitespace s) = true := by
    unfold rstrip
    exact cf_reverse_true (cf_lstrip hpb _ (cf_reverse_true h))
  exact cf_lstrip hpb _ h1

theorem splitFence_fence_append (r : List Char) :
    splitFence (fence ++ r) = [] :: splitFence r := by
  show splitFence (backtick :: backtick :: backtick :: r) = [] :: splitFence r
  simp [splitFence]

theorem splitFence_of_cf_false : ∀ s : List Char, containsFence s = false → splitFence s = [s] := by
  intro s
  induction s with
  | nil => intro _; rfl
  | cons c t ih =>
    intro h
    rcases t with _ | ⟨a, _ | ⟨b, r⟩⟩
    · rfl
    · rfl
    · simp only [containsFence] at h
      have hcond : ¬ (c = backtick ∧ a = backtick ∧ b = backtick) := by
        intro hh
        rw [if_pos hh] at h
        exact absurd h (by simp)
      rw [if_neg hcond] at h
      simp only [splitFence]
      rw [if_neg hcond, ih h]

theorem cf_append_cons {c : Char} (hc : ¬ c = backtick) :
    ∀ a : List Char, containsFence a = false →
      ∀ ys : List Char, containsFence ys = false →
        containsFence (a ++ c :: ys) = false := by
  intro a
  induction a with
  | nil =>
    intro _ ys hys
    rcases ys with _ | ⟨y, _ | ⟨z, ys'⟩⟩
    · rfl
    · rfl
    · simp only [List.nil_append, containsFence]
      rw [if_neg (fun hh => hc hh.1)]
      exact hys
  | cons x as ih =>
    intro ha ys hys
    have ha' : containsFence as = false := cf_cons_false ha
    have htail := ih ha' ys hys
    simp only [List.cons_append]
    rcases as with _ | ⟨y, _ | ⟨z, as'⟩⟩
    · rcases ys with _ | ⟨w, ys'⟩
      · rfl
      · simp only [List.nil_append] at htail ⊢
        simp only [containsFence]
        rw [if_neg (fun hh => hc hh.2.1)]
        exact htail
    · simp only [List.cons_append, List.nil_append] at htail ⊢
      simp only [containsFence]
      rw [if_neg (fun hh => hc hh.2.2)]
      exact htail
    · simp only [List.cons_append] at htail ⊢
      simp only [containsFence]
      rw [if_neg ?_]
      · exact htail
      · intro hh
        simp only [containsFence] at ha
        rw [if_pos hh] at ha
        exact absurd ha (by simp)

theorem splitFence_append_fence :
    ∀ m : List Char, containsFence (m ++ [backtick, backtick]) = false →
      ∀ r : List Char, splitFence (m ++ fence ++ r) = m :: splitFence r := by
  intro m
  induction m with
  | nil => intro _ r; simpa using splitFence_fence_append r
  | cons c m ih =>
    intro hm r
    have hm0 : containsFence (c :: (m ++ [backtick, backtick])) = false := by simpa using hm
    have hm' : containsFence (m ++ [backtick, backtick]) = false := cf_cons_false hm0
    rcases m with _ | ⟨x, _ | ⟨y, m'⟩⟩
    · have hm1 : containsFence (c :: backtick :: backtick :: ([] : List Char)) = false := hm0
      rw [cf_cons3] at hm1
      have hcb : ¬ c = backtick := by
        intro he
        rw [if_pos ⟨he, rfl, rfl⟩] at hm1
        exact absurd hm1 (by simp)
      show splitFence (c :: backtick :: backtick :: (backtick :: r)) = [c] :: splitFence r
      rw [splitFence_cons3]
      rw [if_neg (fun hh => hcb hh.1)]
      have hinner : splitFence (backtick :: backtick :: (backtick :: r)) = [] :: splitFence r :=
        splitFence_fence_append r
      rw [hinner]
    · have hx' : splitFence (x :: backtick :: backtick :: (backtick :: r)) = [x] :: splitFence r :=
        ih hm' r
      have hm1 : containsFence (c :: x :: backtick :: [backtick]) = false := hm0
      rw [cf_cons3] at hm1
      have hcond : ¬ (c = backtick ∧ x = backtick ∧ backtick = backtick) := by
        intro hh
        rw [if_pos hh] at hm1
        exact absurd hm1 (by simp)
      show splitFence (c :: x :: backtick :: (backtick :: backtick :: r)) = [c, x] :: splitFence r
      rw [splitFence_cons3, if_neg hcond, hx']
    · have hx' : splitFence (x :: y :: (m' ++ fence ++ r)) = (x :: y :: m') :: splitFence r :=
        ih hm' r
      have hm1 : containsFence (c :: x :: y :: (m' ++ [backtick, backtick])) = false := hm0
      rw [cf_cons3] at hm1
      have hcond : ¬ (c = backtick ∧ x = backtick ∧ y = backtick) := by
        intro hh
        rw [if_pos hh] at hm1
        exact absurd hm1 (by simp)
      show splitFence (c :: x :: y :: (m' ++ fence ++ r)) = (c :: x :: y :: m') :: splitFence r
      rw [splitFence_cons3, if_neg hcond, hx']

theorem isPrefixOf_append_self : ∀ l t : List Char, l.isPrefixOf (l ++ t) = true := by
  intro l
  induction l with
  | nil => intro t; simp [List.isPrefixOf]
  | cons c l ih => intro t; simp [List.isPrefixOf, ih]

/-- On an input that is exactly one fenced block (`fence ++ content ++ fence`) whose
content cannot complete a fence even against the closing delimiter, the extractor
strips the content and drops a leading literal `python` tag when present. -/
theorem extract_fenced (content : List Char)
    (h : containsFence (content ++ [backtick, backtick]) = false) :
    extract_code_block (fence ++ content ++ fence) =
      if pythonTag.isPrefixOf (pyStrip content) then pyStrip ((pyStrip content).drop 6)
      else pyStrip content := by
  have hsplit : splitFence (fence ++ (content ++ fence)) = [[], content, []] := by
    rw [splitFence_fence_append]
    have h2 : splitFence (content ++ fence) = content :: splitFence [] := by
      simpa using splitFence_append_fence content h []
    rw [h2]
    rfl
  have hcf : containsFence (fence ++ (content ++ fence)) = true := cf_fence_append _
  simp [extract_code_block, hcf, hsplit, List.getD]

/-- Core round-trip computation: for fence-free code, extracting from the
re-normalized assistant turn yields the stripped code. -/
theorem extract_clean (code : List Char) (h : containsFence code = false) :
    extract_code_block (create_clean_assistant_response code) = pyStrip code := by
  have h1 : containsFence (code ++ '\n' :: [backtick, backtick]) = false :=
    cf_append_cons (by decide) code h [backtick, backtick] (by decide)
  have h2 : containsFence (pythonTag ++ '\n' :: (code ++ '\n' :: [backtick, backtick])) = false :=
    cf_append_cons (by decide) pythonTag (by decide) _ h1
  have hmid : containsFence ((pythonTag ++ ['\n'] ++ code ++ ['\n']) ++ [backtick, backtick]) = false := by
    simpa [List.append_assoc] using h2
  have hshape : create_clean_assistant_response code =
      fence ++ (pythonTag ++ ['\n'] ++ code ++ ['\n']) ++ fence := by
    simp [create_clean_assistant_response, List.append_assoc]
  rw [hshape, extract_fenced _ hmid]
  have hnlnil : rstrip Char.isWhitespace ['\n'] = [] := by decide
  have h3 : rstrip Char.isWhitespace (code ++ ['\n']) = rstrip Char.isWhitespace code :=
    rstrip_append_of_eq_nil code hnlnil
  have hmid_eq : pythonTag ++ ['\n'] ++ code ++ ['\n'] =
      (pythonTag ++ ['\n']) ++ (code ++ ['\n']) := by
    simp [List.append_assoc]
  by_cases hrc : rstrip Char.isWhitespace code = []
  · -- the code is all whitespace: both sides strip to []
    have h4 : rstrip Char.isWhitespace (pythonTag ++ ['\n'] ++ code ++ ['\n']) = pythonTag := by
      rw [hmid_eq, rstrip_append_of_eq_nil _ (h3.trans hrc),
        rstrip_append_of_eq_nil _ hnlnil]
      decide
    have h5 : pyStrip (pythonTag ++ ['\n'] ++ code ++ ['\n']) = pythonTag := by
      unfold pyStrip stripBy
      rw [h4]
      decide
    rw [h5]
    have hpre : pythonTag.isPrefixOf pythonTag = true := by decide
    rw [if_pos hpre]
    have hrhs : pyStrip code = [] := by
      unfold pyStrip stripBy
      rw [hrc]
      rfl
    rw [hrhs]
    decide
  · -- the code has a non-whitespace character
    have h4 : rstrip Char.isWhitespace (pythonTag ++ ['\n'] ++ code ++ ['\n']) =
        (pythonTag ++ ['\n']) ++ rstrip Char.isWhitespace code := by
      rw [hmid_eq, rstrip_append_of_ne_nil _ (fun e => hrc (h3 ▸ e)), h3]
    have h5 : pyStrip (pythonTag ++ ['\n'] ++ code ++ ['\n']) =
        pythonTag ++ ('\n' :: rstrip Char.isWhitespace code) := by
      unfold pyStrip stripBy
      rw [h4]
      have hexp : (pythonTag ++ ['\n']) ++ rstrip Char.isWhitespace code =
          'p' :: (['y', 't', 'h', 'o', 'n', '\n'] ++ rstrip Char.isWhitespace code) := by
        simp [pythonTag, List.append_assoc]
      rw [hexp, lstrip_cons_of_neg _ (by decide)]
      simp [pythonTag]
    rw [h5]
    have hpre : pythonTag.isPrefixOf (pythonTag ++ ('\n' :: rstrip Char.isWhitespace code)) = true :=
      isPrefixOf_append_self _ _
    rw [if_pos hpre]
    have hdrop : (pythonTag ++ ('\n' :: rstrip Char.isWhitespace code)).drop 6 =
        '\n' :: rstrip Char.isWhitespace code := by
      rw [show (6 : Nat) = pythonTag.length from rfl, List.drop_left]
    rw [hdrop]
    have h6 : pyStrip ('\n' :: rstrip Char.isWhitespace code) =
        pyStrip (rstrip Char.isWhitespace code) :=
      stripBy_cons_of_pos _ (by decide)
    rw [h6]
    unfold pyStrip stripBy
    rw [rstrip_idem]

/-- The extractor's output is always strip-invariant (every return branch ends
in a `.strip()`). -/
theorem pyStrip_extract (x : List Char) : pyStrip (extract_code_block x) = extract_code_block x := by
  unfold extract_code_block
  split
  · split
    · split
      · exact pyStrip_idem _
      · exact pyStrip_idem _
    · exact pyStrip_idem _
  · exact pyStrip_idem _

/-- The message roles used by the conversation (`"system"`, `"user"`, `"assistant"`). -/
inductive Role where
  | system
  | user
  | assistant
  deriving DecidableEq

/-- A chat message, Python's `{"role": ..., "content": ...}` dictionary. -/
structure Message where
  role : Role
  content : List Char
  deriving DecidableEq

/-- The system prompt installed at line 86-91 of the source. -/
def system_prompt : List Char :=
  ("You are an expert Python programmer. Write clean, efficient functions based on user " ++
    "descriptions. Always output code in ```python code blocks```.").toList

/-- The step-1 user prompt (line 99-102), with the description interpolated. -/
def step1_prompt (description : List Char) : List Char :=
  "Write a Python function that ".toList ++ description ++
    ". Output the function in a ```python code block```.".toList

/-- The step-2 user prompt (line 129-132). -/
def step2_prompt : List Char :=
  ("Add comprehensive documentation to this function including: function description, " ++
    "parameter descriptions with types, return value description, example usage, and edge " ++
    "cases. Output the complete documented function in a ```python code block```.").toList

/-- The step-3 user prompt (line 159-162). -/
def step3_prompt : List Char :=
  ("Add comprehensive unittest test cases to this code. Include tests for: basic " ++
    "functionality, edge cases, error cases, and various input scenarios. Return the " ++
    "complete code with the function, imports, test class, and main block to run tests " ++
    "in a ```python code block```.").toList

/-- Embedding of `generate_filename` (lines 47-56): lowercase, keep alphanumerics
and whitespace, replace spaces by underscores, truncate to 40 characters, strip
underscores from both ends (Python `strip('_')`), append `_complete.py`. -/
def generate_filename (description : List Char) : List Char :=
  stripBy (fun c => c = '_')
      (((description.map Char.toLower).filter
          (fun c => c.isAlphanum || c.isWhitespace)).map
        (fun c => if c = ' ' then '_' else c) |>.take 40) ++
    "_complete.py".toList

/-- Embedding of `save_function_to_file` (lines 58-68).  The file system is
modelled by `writeOk`: when the write succeeds the filename is returned, and
when the write raises, the handler swallows the exception (printing only a
warning) and returns `None`, modelled by `none`.  The `code` argument only
flows into the file contents, which are outside the embedded state. -/
def save_function_to_file (writeOk : Bool) (code description : List Char) : Option (List Char) :=
  if writeOk then some (generate_filename description) else none

/-- Observable outcome of one run of `create_python_function`:
the conversation history at the moment the run ended (Python's `messages`
list when the function returned or the exception escaped), the extracted
code recorded for each completed step, how many completion calls were made,
the filename if a file was written, and the returned triple or the
propagated exception. -/
structure RunTrace where
  history : List Message
  outputs : List (List Char)
  calls : Nat
  saved : Option (List Char)
  result : Except Unit (List Char × List Char × List Char)

/-- Instrumented embedding of `create_python_function` (lines 70-194).
The completion client (`generate_response`, which can raise) is a parameter
`gen`; a raise is `Except.error`.  Each branch mirrors the Python control
flow: the history only grows by `++ [msg]` appends, an error from `gen`
aborts immediately (no further calls, no save) and propagates, and the
final save failure is swallowed.  Note the source appends a re-normalized
assistant message after steps 1 and 2 but not after step 3. -/
def create_python_function_run (gen : List Message → Except Unit (List Char))
    (writeOk : Bool) (description : List Char) : RunTrace :=
  let messages0 : List Message := [⟨Role.system, system_prompt⟩]
  let messages1 := messages0 ++ [⟨Role.user, step1_prompt description⟩]
  match gen messages1 with
  | Except.error e => ⟨messages1, [], 1, none, Except.error e⟩
  | Except.ok response1 =>
    let basic_function := extract_code_block response1
    let messages2 := messages1 ++ [⟨Role.assistant, create_clean_assistant_response basic_function⟩]
    let messages3 := messages2 ++ [⟨Role.user, step2_prompt⟩]
    match gen messages3 with
    | Except.error e => ⟨messages3, [basic_function], 2, none, Except.error e⟩
    | Except.ok response2 =>
      let documented_function := extract_code_block response2
      let messages4 :=
        messages3 ++ [⟨Role.assistant, create_clean_assistant_response documented_function⟩]
      let messages5 := messages4 ++ [⟨Role.user, step3_prompt⟩]
      match gen messages5 with
      | Except.error e => ⟨messages5, [basic_function, documented_function], 3, none, Except.error e⟩
      | Except.ok response3 =>
        let final_code := extract_code_block response3
        let filename := save_function_to_file writeOk final_code description
        ⟨messages5, [basic_function, documented_function, final_code], 3, filename,
          Except.ok (basic_function, documented_function, final_code)⟩

/-- The caller-visible behavior of `create_python_function`: the returned
triple, or the propagated exception. -/
def create_python_function (gen : List Message → Except Unit (List Char))
    (writeOk : Bool) (description : List Char) :
    Except Unit (List Char × List Char × List Char) :=
  (create_python_function_run gen writeOk description).result

/-- The history passed to the first completion call. -/
def hist1 (description : List Char) : List Message :=
  [⟨Role.system, system_prompt⟩, ⟨Role.user, step1_prompt description⟩]

/-- The history passed to the second completion call, given step 1's raw response. -/
def hist2 (description r1 : List Char) : List Message :=
  hist1 description ++
    [⟨Role.assistant, create_clean_assistant_response (extract_code_block r1)⟩,
      ⟨Role.user, step2_prompt⟩]

/-- The history passed to the third completion call (and the final history),
given the raw responses of steps 1 and 2. -/
def hist3 (description r1 r2 : List Char) : List Message :=
  hist2 description r1 ++
    [⟨Role.assistant, create_clean_assistant_response (extract_code_block r2)⟩,
      ⟨Role.user, step3_prompt⟩]

/-- Unfolding of a fully successful run: the three completion calls receive
`hist1`, `hist2`, `hist3`, and the trace records the final history `hist3`
(no assistant message is appended after step 3), the three extracted
outputs, three calls, and the save attempt. -/
theorem run_ok (gen : List Message → Except Unit (List Char)) (w : Bool)
    (d r1 r2 r3 : List Char)
    (h1 : gen (hist1 d) = Except.ok r1)
    (h2 : gen (hist2 d r1) = Except.ok r2)
    (h3 : gen (hist3 d r1 r2) = Except.ok r3) :
    create_python_function_run gen w d =
      ⟨hist3 d r1 r2,
        [extract_code_block r1, extract_code_block r2, extract_code_block r3],
        3,
        save_function_to_file w (extract_code_block r3) d,
        Except.ok (extract_code_block r1, extract_code_block r2, extract_code_block r3)⟩ := by
  simp only [hist1, hist2, hist3, List.cons_append, List.nil_append] at h1 h2 h3
  simp [create_python_function_run, hist1, hist2, hist3, h1, h2, h3]

/-- Unfolding of a run whose second completion call raises: the history at
abort time is `hist2` (step 1's assistant message included), only step 1's
output is recorded, only two calls were made, nothing is saved, and the
error propagates. -/
theorem run_err2 (gen : List Message → Except Unit (List Char)) (w : Bool)
    (d r1 : List Char) (e : Unit)
    (h1 : gen (hist1 d) = Except.ok r1)
    (h2 : gen (hist2 d r1) = Except.error e) :
    create_python_function_run gen w d =
      ⟨hist2 d r1, [extract_code_block r1], 2, none, Except.error e⟩ := by
  simp only [hist1, hist2, List.cons_append, List.nil_append] at h1 h2
  simp [create_python_function_run, hist1, hist2, h1, h2]

/-- A completion client stub that always returns the single-character
response `x`; used to instantiate the driver theorems on concrete inputs. -/
def cexGen : List Message → Except Unit (List Char) := fun _ => Except.ok ['x']

/-- A concrete one-character function description. -/
def cexDescription : List Char := ['f']

/-- C1 counterexample: after a completed run the conversation history holds 6
messages (the source never appends an assistant message after step 3), so the
claimed count of 7 is wrong at this concrete run. -/
theorem c1_counterexample :
    (create_python_function_run cexGen true cexDescription).history.length = 6 ∧
    (6 : Nat) ≠ 7 := by
  constructor
  · rfl
  · decide

/-- C1 (amended): after a completed run the history is exactly `hist3`: one
system message followed by user, assistant, user, assistant, user — 6 messages,
with no assistant message after step 3 — and the history was built append-only
(`hist2` extends `hist1`, `hist3` extends `hist2`, each by appends). -/
theorem c1_conversation_history (gen : List Message → Except Unit (List Char)) (w : Bool)
    (d r1 r2 r3 : List Char)
    (h1 : gen (hist1 d) = Except.ok r1)
    (h2 : gen (hist2 d r1) = Except.ok r2)
    (h3 : gen (hist3 d r1 r2) = Except.ok r3) :
    (create_python_function_run gen w d).history = hist3 d r1 r2 ∧
    (create_python_function_run gen w d).history.map Message.role =
      [Role.system, Role.user, Role.assistant, Role.user, Role.assistant, Role.user] ∧
    hist2 d r1 = hist1 d ++
      [⟨Role.assistant, create_clean_assistant_response (extract_code_block r1)⟩,
        ⟨Role.user, step2_prompt⟩] ∧
    hist3 d r1 r2 = hist2 d r1 ++
      [⟨Role.assistant, create_clean_assistant_response (extract_code_block r2)⟩,
        ⟨Role.user, step3_prompt⟩] := by
  have hrun := run_ok gen w d r1 r2 r3 h1 h2 h3
  refine ⟨by rw [hrun], ?_, rfl, rfl⟩
  rw [hrun]
  simp [hist1, hist2, hist3]

/-- C1 witness: the amended history shape at a concrete successful run. -/
theorem c1_witness :
    (create_python_function_run cexGen true cexDescription).history =
      hist3 cexDescription ['x'] ['x'] ∧
    (create_python_function_run cexGen true cexDescription).history.map Message.role =
      [Role.system, Role.user, Role.assistant, Role.user, Role.assistant, Role.user] ∧
    hist2 cexDescription ['x'] = hist1 cexDescription ++
      [⟨Role.assistant, create_clean_assistant_response (extract_code_block ['x'])⟩,
        ⟨Role.user, step2_prompt⟩] ∧
    hist3 cexDescription ['x'] ['x'] = hist2 cexDescription ['x'] ++
      [⟨Role.assistant, create_clean_assistant_response (extract_code_block ['x'])⟩,
        ⟨Role.user, step3_prompt⟩] :=
  c1_conversation_history cexGen true cexDescription ['x'] ['x'] ['x'] rfl rfl rfl

/-- C2: in a completed run, the assistant messages in the history are exactly
the re-normalized turns `create_clean_assistant_response (extract_code_block rᵢ)`
for the raw responses r₁, r₂ of steps 1 and 2 — never the raw response text
itself (except when the two coincide, since each content equals the
re-normalized form). -/
theorem c2_assistant_renormalized (gen : List Message → Except Unit (List Char)) (w : Bool)
    (d r1 r2 r3 : List Char)
    (h1 : gen (hist1 d) = Except.ok r1)
    (h2 : gen (hist2 d r1) = Except.ok r2)
    (h3 : gen (hist3 d r1 r2) = Except.ok r3) :
    ((create_python_function_run gen w d).history.filter
        (fun m => m.role = Role.assistant)).map Message.content =
      [create_clean_assistant_response (extract_code_block r1),
        create_clean_assistant_response (extract_code_block r2)] := by
  have hrun := run_ok gen w d r1 r2 r3 h1 h2 h3
  rw [hrun]
  simp [hist1, hist2, hist3]

/-- C2 witness: the assistant contents at a concrete successful run. -/
theorem c2_witness :
    ((create_python_function_run cexGen true cexDescription).history.filter
        (fun m => m.role = Role.assistant)).map Message.content =
      [create_clean_assistant_response (extract_code_block ['x']),
        create_clean_assistant_response (extract_code_block ['x'])] :=
  c2_assistant_renormalized cexGen true cexDescription ['x'] ['x'] ['x'] rfl rfl rfl

/-- C7: if the second completion call raises, the run aborts with step 1's
extracted output recorded and its assistant message in the history (`hist2`),
only two completion calls made (step 3 never attempted), no file saved, and
the error propagated unrecovered to the caller. -/
theorem c7_step2_failure (gen : List Message → Except Unit (List Char)) (w : Bool)
    (d r1 : List Char) (e : Unit)
    (h1 : gen (hist1 d) = Except.ok r1)
    (h2 : gen (hist2 d r1) = Except.error e) :
    create_python_function_run gen w d =
      ⟨hist2 d r1, [extract_code_block r1], 2, none, Except.error e⟩ ∧
    create_python_function gen w d = Except.error e := by
  have hrun := run_err2 gen w d r1 e h1 h2
  refine ⟨hrun, ?_⟩
  unfold create_python_function
  rw [hrun]

/-- A completion client stub that answers only the first call (history of
length 2) and raises on any later call; used to exercise the step-2 failure. -/
def genFailStep2 : List Message → Except Unit (List Char) :=
  fun h => if h.length = 2 then Except.ok ['x'] else Except.error ()

/-- C7 witness: the step-2 failure behavior at a concrete run. -/
theorem c7_witness :
    create_python_function_run genFailStep2 true cexDescription =
      ⟨hist2 cexDescription ['x'], [extract_code_block ['x']], 2, none, Except.error ()⟩ ∧
    create_python_function genFailStep2 true cexDescription = Except.error () :=
  c7_step2_failure genFailStep2 true cexDescription ['x'] () rfl rfl

/-- C8: if writing the final file fails (`writeOk = false`, the write raises),
the run still completes logically and returns the triple of the three
extracted code strings; nothing was saved and no error propagates. -/
theorem c8_save_failure_swallowed (gen : List Message → Except Unit (List Char))
    (d r1 r2 r3 : List Char)
    (h1 : gen (hist1 d) = Except.ok r1)
    (h2 : gen (hist2 d r1) = Except.ok r2)
    (h3 : gen (hist3 d r1 r2) = Except.ok r3) :
    create_python_function gen false d =
      Except.ok (extract_code_block r1, extract_code_block r2, extract_code_block r3) ∧
    (create_python_function_run gen false d).saved = none := by
  have hrun := run_ok gen false d r1 r2 r3 h1 h2 h3
  unfold create_python_function
  rw [hrun]
  exact ⟨rfl, rfl⟩

/-- C8 witness: the failed-save run still returns the triple at a concrete run. -/
theorem c8_witness :
    create_python_function cexGen false cexDescription =
      Except.ok (extract_code_block ['x'], extract_code_block ['x'], extract_code_block ['x']) ∧
    (create_python_function_run cexGen false cexDescription).saved = none :=
  c8_save_failure_swallowed cexGen cexDescription ['x'] ['x'] ['x'] rfl rfl rfl

/-- C3 counterexample: the formatter/extractor round trip is not the identity
on every fence-free code string: it strips surrounding whitespace, so the
code string consisting of a space followed by `x` (which contains no
triple-backtick) comes back as just `x`. -/
theorem c3_counterexample :
    extract_code_block (create_clean_assistant_response [' ', 'x']) = ['x'] ∧
    extract_code_block (create_clean_assistant_response [' ', 'x']) ≠ [' ', 'x'] := by
  constructor
  · decide
  · decide

/-- C3 (amended): for every fence-free code string with no surrounding
whitespace (`pyStrip code = code`) the Turn Formatter output round-trips
through the Code Extractor unchanged; in general the round trip returns
`pyStrip code`. -/
theorem c3_roundtrip (code : List Char) (h1 : containsFence code = false)
    (h2 : pyStrip code = code) :
    extract_code_block (create_clean_assistant_response code) = code :=
  (extract_clean code h1).trans h2

/-- C3 witness: the round trip at the concrete whitespace-free code `x`. -/
theorem c3_witness :
    extract_code_block (create_clean_assistant_response ['x']) = ['x'] :=
  c3_roundtrip ['x'] (by decide) (by decide)

/-- C4 counterexample: extraction is not idempotent on every input: for the
input of five backticks, the extractor falls back to the raw text (one lone
separator occurrence), and re-extracting its formatted form yields `[]`. -/
theorem c4_counterexample :
    extract_code_block
        (create_clean_assistant_response
          (extract_code_block [backtick, backtick, backtick, backtick, backtick])) ≠
      extract_code_block [backtick, backtick, backtick, backtick, backtick] := by
  decide

/-- C4 (amended): whenever the first extraction's result is fence-free (in
particular whenever the fallback did not return text still containing a
triple-backtick), extraction is idempotent:
`extract (format (extract x)) = extract x`. -/
theorem c4_idempotent (x : List Char)
    (h : containsFence (extract_code_block x) = false) :
    extract_code_block (create_clean_assistant_response (extract_code_block x)) =
      extract_code_block x :=
  (extract_clean _ h).trans (pyStrip_extract x)

/-- C4 witness: idempotence at the concrete input `a`. -/
theorem c4_witness :
    extract_code_block (create_clean_assistant_response (extract_code_block ['a'])) =
      extract_code_block ['a'] :=
  c4_idempotent ['a'] (by decide)

/-- C5 counterexample: the extractor does not strip an arbitrary leading
language tag: for the fenced content `js\nfoo` the result still begins with
`js`, not the tag-stripped `foo` the claim requires. -/
theorem c5_counterexample :
    extract_code_block (fence ++ ['j', 's', '\n', 'f', 'o', 'o'] ++ fence) =
      ['j', 's', '\n', 'f', 'o', 'o'] ∧
    (['j', 's', '\n', 'f', 'o', 'o'] : List Char) ≠ ['f', 'o', 'o'] := by
  constructor
  · decide
  · decide

/-- C5 (amended): the tag stripping is hardcoded to the single literal tag
`python`: when the stripped content between the delimiters starts with the six
characters `python`, the extractor drops exactly those six characters and trims
the rest (any other leading tag is left in place, per the counterexample). -/
theorem c5_python_tag_only (content : List Char)
    (h : containsFence (content ++ [backtick, backtick]) = false)
    (hp : pythonTag.isPrefixOf (pyStrip content) = true) :
    extract_code_block (fence ++ content ++ fence) = pyStrip ((pyStrip content).drop 6) := by
  rw [extract_fenced content h, if_pos hp]

/-- C5 witness: the `python` tag is stripped at a concrete fenced input. -/
theorem c5_witness :
    extract_code_block
        (fence ++ ['p', 'y', 't', 'h', 'o', 'n', '\n', 'f', 'o', 'o'] ++ fence) =
      pyStrip ((pyStrip ['p', 'y', 't', 'h', 'o', 'n', '\n', 'f', 'o', 'o']).drop 6) :=
  c5_python_tag_only ['p', 'y', 't', 'h', 'o', 'n', '\n', 'f', 'o', 'o']
    (by decide) (by decide)

/-- C6: on input with no triple-backtick marker the extractor returns the
whitespace-trimmed original text (and, being a total function, raises no
error). -/
theorem c6_no_fence (s : List Char) (h : containsFence s = false) :
    extract_code_block s = pyStrip s := by
  simp [extract_code_block, h]

/-- C6 witness: the fallback at a concrete fence-free input. -/
theorem c6_witness :
    extract_code_block [' ', 'h', 'i', ' '] = pyStrip [' ', 'h', 'i', ' '] :=
  c6_no_fence [' ', 'h', 'i', ' '] (by decide)

/-- C9: `extract_code_block` and `create_clean_assistant_response` are total
deterministic functions of their input: equal inputs give equal outputs (and
both are everywhere-defined Lean functions, so they terminate and never
raise). -/
theorem c9_pure_deterministic (s t : List Char) (h : s = t) :
    extract_code_block s = extract_code_block t ∧
    create_clean_assistant_response s = create_clean_assistant_response t := by
  subst h
  exact ⟨rfl, rfl⟩

/-- C9 witness: determinism at a concrete input. -/
theorem c9_witness :
    extract_code_block ['a'] = extract_code_block ['a'] ∧
    create_clean_assistant_response ['a'] = create_clean_assistant_response ['a'] :=
  c9_pure_deterministic ['a'] ['a'] rfl

/-- C10: when splitting on the triple-backtick marker yields exactly two parts
(the marker occurs exactly once), the extractor takes the fallback branch and
returns the whole original text trimmed, with the marker still present in the
result. -/
theorem c10_single_marker (s : List Char) (h : (splitFence s).length = 2) :
    extract_code_block s = pyStrip s ∧ containsFence (pyStrip s) = true := by
  have hcf : containsFence s = true := by
    cases hb : containsFence s
    · rw [splitFence_of_cf_false s hb] at h
      simp at h
    · rfl
  have hlen : ¬ ((splitFence s).length ≥ 3) := by
    rw [h]
    decide
  constructor
  · simp [extract_code_block, hcf, hlen]
  · exact cf_pyStrip hcf

/-- C10 witness: the lone-marker fallback at `a\x60\x60\x60b`. -/
theorem c10_witness :
    extract_code_block ['a', backtick, backtick, backtick, 'b'] =
      pyStrip ['a', backtick, backtick, backtick, 'b'] ∧
    containsFence (pyStrip ['a', backtick, backtick, backtick, 'b']) = true :=
  c10_single_marker ['a', backtick, backtick, backtick, 'b'] (by decide)
